import Mathlib

/-!
Shallow embedding of the preserved-marks subsystem of a mark-compact
garbage collector (`src/hotspot/share/gc/shared/preservedMarks.cpp`).

An object's header (its "mark word") is modelled as either a plain mark
word (`Header.normal`) or a forwarding reference to another object
(`Header.fwd`).  The heap is a total map from object identities (`Nat`)
to headers.  `PreservedMarks` is the per-worker stack of saved
`OopAndMarkWord` entries; its backing segmented container is modelled as
a list (head = most recently pushed element, so `pop` is LIFO) together
with a count of cached free segments.  `PreservedMarksSet` owns an
optional array of such stacks (field `stacksArr`, since the source name `_stacks` collides with a reserved token); a `none` array models the C++ null
`_stacks` pointer.

Debug assertions (`assert(...)`) are fatal in the C++ code; operations
whose body begins or ends with an assertion that can actually fail are
modelled as `Option`-returning functions where `none` is the assertion
failure.  Assertions that are established by the operation itself are
kept as guards as well, and proved to always pass.

The C++ loops of `PreservedMarksSet` run over indices `0 ≤ i < _num` and
index the backing array; under the representation invariant that `_num`
equals the array length (established by `init`, reset by `reclaim`) this
visits exactly the array's slots, which is modelled as structural
recursion over the slot list.
-/

/-- A mark word: an opaque fixed-width header value, modelled as `Nat`. -/
abbrev MarkWord : Type := Nat

/-- An object header: either a normal mark word, or a forwarding
reference to another object (the encoding compaction installs when it
relocates an object). -/
inductive Header where
  | normal (m : MarkWord)
  | fwd (dest : Nat)
deriving DecidableEq, Repr

/-- The heap: a total map from object identity to its current header. -/
abbrev Heap : Type := Nat → Header

/-- Model of `oopDesc::is_forwarded()`: does the object's header currently hold a
forwarding reference? -/
def Header.is_forwarded : Header → Bool
  | .normal _ => false
  | .fwd _ => true

/-- Model of `oopDesc::forwardee()`: the target of a forwarding reference.  Only
meaningful when `is_forwarded`; on a normal header the C++ behaviour is
undefined and the model returns the object's own mark slot content as a
junk value `0`. -/
def Header.forwardee : Header → Nat
  | .normal _ => 0
  | .fwd dest => dest

/-- Write a header for object `o` into the heap. -/
def Heap.write (h : Heap) (o : Nat) (hd : Header) : Heap :=
  fun o' => if o' = o then hd else h o'

/-- Model of `OopAndMarkWord`: a saved entry, an object reference paired with the
mark word it carried when it was preserved. -/
structure OopAndMarkWord where
  obj : Nat
  mark : MarkWord
deriving DecidableEq, Repr

/-- Model of `OopAndMarkWord::set_mark()`: write the saved mark word back into the
target object's header. -/
def OopAndMarkWord.set_mark (e : OopAndMarkWord) (h : Heap) : Heap :=
  h.write e.obj (Header.normal e.mark)

/-- Model of `OopAndMarkWord::get_oop()`. -/
def OopAndMarkWord.get_oop (e : OopAndMarkWord) : Nat :=
  e.obj

/-- Model of `OopAndMarkWord::set_oop()`. -/
def OopAndMarkWord.set_oop (e : OopAndMarkWord) (o : Nat) : OopAndMarkWord :=
  { e with obj := o }

/-- Model of `PreservedMarks`: the per-worker stack of saved entries.  `stack` is
the element sequence of the backing `Stack<OopAndMarkWord, mtGC>` with
the head as the top (most recently pushed element); `cacheSize` is the
container's count of cached free segments.  `PreservedMarks` instantiates
the container with no segment caching, so popping frees segments
directly and never grows the cache. -/
structure PreservedMarks where
  stack : List OopAndMarkWord
  cacheSize : Nat
deriving DecidableEq, Repr

/-- Default construction `PreservedMarks()`: a freshly constructed stack
is empty with no cached segments. -/
def PreservedMarks.initial : PreservedMarks :=
  { stack := [], cacheSize := 0 }

/-- Modelled from the spec: `PreservedMarks::push` is declared in
`preservedMarks.hpp` / `preservedMarks.inline.hpp`, which are not under
`src/`.  Per the spec it appends a new Saved Entry holding the object
and its mark word to the worker's stack. -/
def PreservedMarks.push (pm : PreservedMarks) (o : Nat) (m : MarkWord) :
    PreservedMarks :=
  { pm with stack := { obj := o, mark := m } :: pm.stack }

/-- Model of `PreservedMarks::size()`: the number of entries currently held. -/
def PreservedMarks.size (pm : PreservedMarks) : Nat :=
  pm.stack.length

/-- Debug assertion `PreservedMarks::assert_empty()`: the stack holds no
elements and the container has no cached segments. -/
def PreservedMarks.assert_emptyB (pm : PreservedMarks) : Bool :=
  pm.stack.isEmpty && pm.cacheSize == 0

/-- The `while (!_stack.is_empty())` loop of `PreservedMarks::restore`:
pop each entry in turn (top first) and write its saved mark back. -/
def restoreLoop : List OopAndMarkWord → Heap → Heap
  | [], h => h
  | e :: rest, h => restoreLoop rest (e.set_mark h)

/-- Model of `PreservedMarks::restore()`: pop every entry and write its mark back,
leaving the stack empty.  The trailing `assert_empty()` is dealt with
separately: the stack part always holds after the loop, and the
cached-segment part is proved for stacks whose cache is empty. -/
def PreservedMarks.restore (pm : PreservedMarks) (h : Heap) :
    PreservedMarks × Heap :=
  ({ pm with stack := [] }, restoreLoop pm.stack h)

/-- The body of the `while (!iter.is_empty())` loop of
`PreservedMarks::adjust_during_full_gc`, acting on one entry: if the
entry's target object is currently forwarded, retarget the entry to the
forwardee; otherwise leave the entry alone. -/
def adjustEntry (h : Heap) (e : OopAndMarkWord) : OopAndMarkWord :=
  if (h e.get_oop).is_forwarded then e.set_oop (h e.get_oop).forwardee else e

/-- Model of `PreservedMarks::adjust_during_full_gc()`: traverse every entry in
place (via `StackIterator`, removing nothing) and retarget each entry
whose target is forwarded. -/
def PreservedMarks.adjust_during_full_gc (pm : PreservedMarks) (h : Heap) :
    PreservedMarks :=
  { pm with stack := pm.stack.map (adjustEntry h) }

/-- Model of `PreservedMarks::restore_and_increment(volatile size_t*)`: read the
pre-restore size, restore, and atomically add that size to the shared
counter only when it is positive.  The returned `Bool` records whether
the atomic add was performed. -/
def PreservedMarks.restore_and_increment (pm : PreservedMarks) (h : Heap)
    (total : Nat) : PreservedMarks × Heap × Nat × Bool :=
  let stack_size := pm.size
  let r := pm.restore h
  if stack_size > 0 then (r.1, r.2, total + stack_size, true)
  else (r.1, r.2, total, false)

/-- Modelled from the spec: `PreservedMarks::init_forwarded_mark` is
declared in `preservedMarks.inline.hpp`, which is not under `src/`.  Per
the spec it overwrites the header of an object found forwarded with the
canonical "already preserved, awaiting restore" marker, so that a
subsequent `is_forwarded` check on the object is false. -/
def PreservedMarks.init_forwarded_mark (h : Heap) (o : Nat) : Heap :=
  h.write o (Header.normal 0)

/-- Model of `RemoveForwardedPointerClosure::do_object(oop)`: invoke
`init_forwarded_mark` on the object exactly when it reports itself
forwarded.  The returned `Bool` records whether the helper was invoked. -/
def RemoveForwardedPointerClosure.do_object (h : Heap) (o : Nat) :
    Heap × Bool :=
  if (h o).is_forwarded then (PreservedMarks.init_forwarded_mark h o, true)
  else (h, false)

/-- Model of `PreservedMarksSet`: `in_c_heap` is the allocation-mode flag fixed at
construction (`_in_c_heap`), `stacksArr` the backing padded array `_stacks`
(`none` = the null pointer), `num` the slot count (`_num`). -/
structure PreservedMarksSet where
  in_c_heap : Bool
  stacksArr : Option (List PreservedMarks)
  num : Nat
deriving DecidableEq, Repr

/-- Constructor `PreservedMarksSet(bool in_c_heap)`: a freshly constructed set is
uninitialized. -/
def PreservedMarksSet.mkSet (c : Bool) : PreservedMarksSet :=
  { in_c_heap := c, stacksArr := none, num := 0 }

/-- Debug assertion `PreservedMarksSet::assert_empty()`: the set is
initialized (`_stacks != NULL && _num > 0`) and every slot is empty with
no cached segments. -/
def PreservedMarksSet.assert_emptyB (s : PreservedMarksSet) : Bool :=
  match s.stacksArr with
  | none => false
  | some l => decide (0 < s.num) && l.all PreservedMarks.assert_emptyB

/-- Model of `PreservedMarksSet::init(uint num)`: fatal (`none`) if the set is
already initialized (`_stacks != NULL || _num != 0`) or if the requested
worker count is zero; otherwise allocate the array (in the mode fixed by
`in_c_heap`; the mode does not affect the abstract contents),
default-construct every slot, and record the count.  The trailing
`assert_empty()` is kept as a guard and always passes. -/
def PreservedMarksSet.init (s : PreservedMarksSet) (n : Nat) :
    Option PreservedMarksSet :=
  if s.stacksArr = none ∧ s.num = 0 then
    if 0 < n then
      if ({ s with
          stacksArr := some (List.replicate n PreservedMarks.initial),
          num := n } : PreservedMarksSet).assert_emptyB then
        some { s with
          stacksArr := some (List.replicate n PreservedMarks.initial),
          num := n }
      else none
    else none
  else none

/-- The sequential restore loop of `PreservedMarksSet::restore` (the
`workers == NULL` branch): for each slot in order, add its size to the
running total, then restore it. -/
def seqRestoreLoop : List PreservedMarks → Heap → Nat →
    List PreservedMarks × Heap × Nat
  | [], h, t => ([], h, t)
  | pm :: rest, h, t =>
      let r := pm.restore h
      let rec' := seqRestoreLoop rest r.2 (t + pm.size)
      (r.1 :: rec'.1, rec'.2.1, rec'.2.2)

/-- The parallel restore path (`ParRestoreTask::work`): the
`SequentialSubTasksDone` distributor hands out task ids `0, 1, ...` in
order, each claimed by exactly one of the participating threads, and the
claiming thread runs `restore_and_increment` on that slot against the
shared atomic counter.  Distinct tasks touch distinct slots and the
counter updates are atomic adds, so the abstract result is the
serialization of the per-task operations in task-id order. -/
def parRestoreLoop : List PreservedMarks → Heap → Nat →
    List PreservedMarks × Heap × Nat
  | [], h, t => ([], h, t)
  | pm :: rest, h, t =>
      let r := pm.restore_and_increment h t
      let rec' := parRestoreLoop rest r.2.1 r.2.2.1
      (r.1 :: rec'.1, rec'.2.1, rec'.2.2)

/-- Model of `PreservedMarksSet::restore(WorkGang*)`: `workers = none` models a
null `WorkGang*` (sequential path); `workers = some wn` models a pool
whose `active_workers()` is `wn` (the parallel task; `wn` configures
only the completion barrier of the distributor, not which tasks run).
The debug pre-pass total, the trailing `assert_empty()` and the
`total_size == total_size_before` cross-check are kept as guards. -/
def PreservedMarksSet.restore (s : PreservedMarksSet) (workers : Option Nat)
    (h : Heap) : Option (PreservedMarksSet × Heap × Nat) :=
  match s.stacksArr with
  | none => none
  | some l =>
      let total_size_before := (l.map PreservedMarks.size).sum
      let r :=
        match workers with
        | none => seqRestoreLoop l h 0
        | some _wn => parRestoreLoop l h 0
      let s' : PreservedMarksSet := { s with stacksArr := some r.1 }
      if s'.assert_emptyB && (r.2.2 == total_size_before) then
        some (s', r.2.1, r.2.2)
      else none

/-- Model of `PreservedMarksSet::reclaim()`: fatal (`none`) unless the set is
initialized and every slot is empty; otherwise destroy the slots, free
the array when it was C-heap allocated (no abstract effect), and reset
to the uninitialized state.  `in_c_heap` is not touched. -/
def PreservedMarksSet.reclaim (s : PreservedMarksSet) :
    Option PreservedMarksSet :=
  if s.assert_emptyB then some { s with stacksArr := none, num := 0 }
  else none

/-- The initialization-state invariant of the set: `_num` is zero exactly
when the `_stacks` pointer is null. -/
def PreservedMarksSet.invOK (s : PreservedMarksSet) : Prop :=
  s.num = 0 ↔ s.stacksArr = none

/-- Push a whole sequence of `(object, mark)` pairs, first element first,
onto a stack — the shape of the preservation phase from the caller's
point of view. -/
def pushAll (pm : PreservedMarks) (ps : List (Nat × MarkWord)) :
    PreservedMarks :=
  ps.foldl (fun a q => a.push q.1 q.2) pm

/-- A concrete all-normal heap used by concrete instantiations. -/
def heap0 : Heap :=
  fun _ => Header.normal 0

/-- A concrete heap where object `0` is forwarded to object `1`. -/
def heapAB : Heap :=
  fun o => if o = 0 then Header.fwd 1 else Header.normal 9

/-- A concrete heap with a forwarding chain `0 → 1 → 2`. -/
def heapChain : Heap :=
  fun o =>
    if o = 0 then Header.fwd 1
    else if o = 1 then Header.fwd 2
    else Header.normal 9

/-- A concrete slot list with sizes `1` and `2`. -/
def lEx : List PreservedMarks :=
  [{ stack := [{ obj := 0, mark := 3 }], cacheSize := 0 },
   { stack := [{ obj := 1, mark := 4 }, { obj := 2, mark := 5 }],
     cacheSize := 0 }]

/-- A concrete initialized set holding `lEx`. -/
def sEx : PreservedMarksSet :=
  { in_c_heap := true, stacksArr := some lEx, num := 2 }

/-- A concrete initialized set whose single slot is empty. -/
def sEmptyEx : PreservedMarksSet :=
  { in_c_heap := false, stacksArr := some [PreservedMarks.initial], num := 1 }

/-- A concrete uninitialized set. -/
def sFresh : PreservedMarksSet :=
  PreservedMarksSet.mkSet true

theorem restoreLoop_untouched (l : List OopAndMarkWord) :
    ∀ (h : Heap) (o : Nat), (∀ e ∈ l, e.obj ≠ o) →
      restoreLoop l h o = h o := by
  induction l with
  | nil => intro h o _; rfl
  | cons e rest ih =>
      intro h o hno
      have he : e.obj ≠ o := hno e (List.mem_cons_self e rest)
      have hset : (e.set_mark h) o = h o := by
        simp only [OopAndMarkWord.set_mark, Heap.write]
        exact if_neg fun hc => he hc.symm
      rw [restoreLoop,
        ih _ o fun e' he' => hno e' (List.mem_cons_of_mem _ he'), hset]

theorem restoreLoop_last_write (l : List OopAndMarkWord) :
    ∀ (h : Heap) (o : Nat) (m : MarkWord),
      (⟨o, m⟩ : OopAndMarkWord) ∈ l →
      (∀ e ∈ l, e.obj = o → e.mark = m) →
      restoreLoop l h o = Header.normal m := by
  induction l with
  | nil => intro h o m hmem _; cases hmem
  | cons e rest ih =>
      intro h o m hmem hall
      rw [restoreLoop]
      by_cases hrest : ∃ e' ∈ rest, e'.obj = o
      · obtain ⟨e', he', hko⟩ := hrest
        have hm : e'.mark = m := hall e' (List.mem_cons_of_mem _ he') hko
        have hmem' : (⟨o, m⟩ : OopAndMarkWord) ∈ rest := by
          have he'eq : e' = ⟨o, m⟩ := by cases e'; simp_all
          rw [← he'eq]; exact he'
        exact ih _ o m hmem'
          fun e'' he'' => hall e'' (List.mem_cons_of_mem _ he'')
      · push_neg at hrest
        have hehead : e = (⟨o, m⟩ : OopAndMarkWord) := by
          rcases List.mem_cons.mp hmem with hh | ht
          · exact hh.symm
          · exact absurd rfl (hrest _ ht)
        subst hehead
        rw [restoreLoop_untouched rest _ o hrest]
        simp [OopAndMarkWord.set_mark, Heap.write]

theorem pushAll_stack (ps : List (Nat × MarkWord)) (pm : PreservedMarks) :
    (pushAll pm ps).stack =
      (ps.map fun q => OopAndMarkWord.mk q.1 q.2).reverse ++ pm.stack := by
  induction ps generalizing pm with
  | nil => simp [pushAll]
  | cons q rest ih =>
      show (pushAll (pm.push q.1 q.2) rest).stack = _
      rw [ih]
      simp [PreservedMarks.push]

theorem pushAll_cacheSize (ps : List (Nat × MarkWord)) (pm : PreservedMarks) :
    (pushAll pm ps).cacheSize = pm.cacheSize := by
  induction ps generalizing pm with
  | nil => rfl
  | cons q rest ih =>
      show (pushAll (pm.push q.1 q.2) rest).cacheSize = _
      rw [ih]; rfl

theorem nodup_keys_eq (ps : List (Nat × MarkWord)) :
    ∀ (p q : Nat × MarkWord), (ps.map Prod.fst).Nodup →
      p ∈ ps → q ∈ ps → p.1 = q.1 → p = q := by
  induction ps with
  | nil => intro p q _ hp _ _; cases hp
  | cons a rest ih =>
      intro p q hnd hp hq hk
      rw [List.map_cons, List.nodup_cons] at hnd
      rcases List.mem_cons.mp hp with hph | hpt <;>
        rcases List.mem_cons.mp hq with hqh | hqt
      · rw [hph, hqh]
      · exfalso; apply hnd.1; rw [hph] at hk; rw [hk]
        exact List.mem_map_of_mem Prod.fst hqt
      · exfalso; apply hnd.1; rw [hqh] at hk; rw [← hk]
        exact List.mem_map_of_mem Prod.fst hpt
      · exact ih p q hnd.2 hpt hqt hk

theorem restore_and_increment_eq (pm : PreservedMarks) (h : Heap)
    (total : Nat) :
    pm.restore_and_increment h total =
      ((pm.restore h).1, (pm.restore h).2, total + pm.size,
        decide (0 < pm.size)) := by
  unfold PreservedMarks.restore_and_increment
  by_cases hs : 0 < pm.size
  · simp [hs]
  · have h0 : pm.size = 0 := Nat.eq_zero_of_not_pos hs
    simp [hs, h0]

theorem seqRestoreLoop_fst (l : List PreservedMarks) :
    ∀ (h : Heap) (t : Nat),
      (seqRestoreLoop l h t).1 =
        l.map fun pm => { pm with stack := [] } := by
  induction l with
  | nil => intro h t; rfl
  | cons pm rest ih =>
      intro h t
      simp only [seqRestoreLoop, List.map_cons, List.cons.injEq]
      exact ⟨rfl, ih _ _⟩

theorem seqRestoreLoop_total (l : List PreservedMarks) :
    ∀ (h : Heap) (t : Nat),
      (seqRestoreLoop l h t).2.2 = t + (l.map PreservedMarks.size).sum := by
  induction l with
  | nil => intro h t; simp [seqRestoreLoop]
  | cons pm rest ih =>
      intro h t
      simp only [seqRestoreLoop, List.map_cons, List.sum_cons]
      rw [ih, Nat.add_assoc]

theorem parRestoreLoop_eq_seq (l : List PreservedMarks) :
    ∀ (h : Heap) (t : Nat), parRestoreLoop l h t = seqRestoreLoop l h t := by
  induction l with
  | nil => intro h t; rfl
  | cons pm rest ih =>
      intro h t
      simp only [parRestoreLoop, seqRestoreLoop, restore_and_increment_eq, ih]

theorem restore_of_empty (pm : PreservedMarks) (h : Heap)
    (he : pm.stack = []) : pm.restore h = (pm, h) := by
  cases pm
  simp_all [PreservedMarks.restore, restoreLoop]

theorem assert_emptyB_stack (pm : PreservedMarks)
    (hpm : pm.assert_emptyB = true) : pm.stack = [] ∧ pm.cacheSize = 0 := by
  unfold PreservedMarks.assert_emptyB at hpm
  rw [Bool.and_eq_true, beq_iff_eq] at hpm
  exact ⟨List.isEmpty_iff.mp hpm.1, hpm.2⟩

theorem seqRestoreLoop_all_empty (l : List PreservedMarks) :
    ∀ (h : Heap) (t : Nat), (∀ pm ∈ l, pm.assert_emptyB = true) →
      seqRestoreLoop l h t = (l, h, t) := by
  induction l with
  | nil => intro h t _; rfl
  | cons pm rest ih =>
      intro h t hall
      obtain ⟨hst, -⟩ :=
        assert_emptyB_stack pm (hall pm (List.mem_cons_self pm rest))
      have hsz : pm.size = 0 := by simp [PreservedMarks.size, hst]
      simp only [seqRestoreLoop, restore_of_empty pm h hst, hsz,
        Nat.add_zero, ih _ t fun q hq => hall q (List.mem_cons_of_mem _ hq)]

theorem stacksArr_set_eta (s : PreservedMarksSet) (l : List PreservedMarks)
    (hl : s.stacksArr = some l) : { s with stacksArr := some l } = s := by
  cases s
  simp_all

theorem assert_emptyB_set_facts (s : PreservedMarksSet)
    (hs : s.assert_emptyB = true) :
    ∃ l, s.stacksArr = some l ∧ 0 < s.num ∧
      ∀ pm ∈ l, pm.assert_emptyB = true := by
  unfold PreservedMarksSet.assert_emptyB at hs
  cases hsl : s.stacksArr with
  | none => rw [hsl] at hs; cases hs
  | some l =>
      rw [hsl] at hs
      rw [Bool.and_eq_true, decide_eq_true_eq, List.all_eq_true] at hs
      exact ⟨l, rfl, hs.1, hs.2⟩

theorem init_fresh_some (s : PreservedMarksSet) (n : Nat)
    (h1 : s.stacksArr = none) (h2 : s.num = 0) (h3 : 0 < n) :
    s.init n = some { s with
      stacksArr := some (List.replicate n PreservedMarks.initial),
      num := n } := by
  unfold PreservedMarksSet.init
  rw [if_pos ⟨h1, h2⟩, if_pos h3, if_pos]
  show PreservedMarksSet.assert_emptyB _ = true
  unfold PreservedMarksSet.assert_emptyB
  rw [Bool.and_eq_true, decide_eq_true_eq, List.all_eq_true]
  refine ⟨h3, fun pm hpm => ?_⟩
  rw [List.eq_of_mem_replicate hpm]
  rfl

theorem restore_empty_noop (s : PreservedMarksSet) (h : Heap)
    (hs : s.assert_emptyB = true) : s.restore none h = some (s, h, 0) := by
  obtain ⟨l, hsl, hnum, hall⟩ := assert_emptyB_set_facts s hs
  have hsum : (l.map PreservedMarks.size).sum = 0 := by
    apply List.sum_eq_zero
    intro x hx
    rw [List.mem_map] at hx
    obtain ⟨pm, hpm, hpe⟩ := hx
    rw [← hpe, PreservedMarks.size, (assert_emptyB_stack pm (hall pm hpm)).1]
    rfl
  obtain ⟨c, st, n⟩ := s
  have hst : st = some l := hsl
  subst hst
  unfold PreservedMarksSet.restore
  simp only [seqRestoreLoop_all_empty l h 0 hall, hsum]
  rw [if_pos]
  rw [Bool.and_eq_true]
  exact ⟨hs, beq_self_eq_true 0⟩

theorem restore_some_assert (s : PreservedMarksSet) (w : Option Nat)
    (h : Heap) (r : PreservedMarksSet × Heap × Nat)
    (hr : s.restore w h = some r) : r.1.assert_emptyB = true := by
  obtain ⟨c, st, n⟩ := s
  unfold PreservedMarksSet.restore at hr
  cases st with
  | none => cases hr
  | some l =>
      simp only at hr
      split at hr
      · next hcond =>
          rw [Bool.and_eq_true] at hcond
          cases hr
          exact hcond.1
      · cases hr

/-- C1 counterexample: push `(0, 1)` then `(0, 2)` onto a fresh stack and
restore.  The pops are LIFO, so the entry pushed first is written back
last and object `0` ends with header `1`, not `2` — refuting "every
`object_i`'s header equals `mark_i`" for arbitrary push sequences. -/
theorem c1_round_trip_cex :
    (((pushAll PreservedMarks.initial [(0, 1), (0, 2)]).restore heap0).2 0
      ≠ Header.normal 2) ∧
    (((pushAll PreservedMarks.initial [(0, 1), (0, 2)]).restore heap0).2 0
      = Header.normal 1) := by
  constructor
  · intro hcontra
    have h1 : ((pushAll PreservedMarks.initial [(0, 1), (0, 2)]).restore
        heap0).2 0 = Header.normal 1 := by decide
    rw [h1] at hcontra
    cases hcontra
  · decide

/-- C1 (amended with pairwise-distinct pushed objects): pushing any
sequence of `(object_i, mark_i)` pairs with distinct objects onto a
fresh per-worker stack and then restoring leaves every `object_i`'s
header equal to `mark_i`, and the stack empty with zero cached
segments. -/
theorem c1_round_trip_restore (ps : List (Nat × MarkWord)) (h : Heap)
    (hnd : (ps.map Prod.fst).Nodup) :
    (∀ p ∈ ps,
      ((pushAll PreservedMarks.initial ps).restore h).2 p.1
        = Header.normal p.2) ∧
    ((pushAll PreservedMarks.initial ps).restore h).1.stack = [] ∧
    ((pushAll PreservedMarks.initial ps).restore h).1.assert_emptyB
      = true := by
  have hstack := pushAll_stack ps PreservedMarks.initial
  have hcache := pushAll_cacheSize ps PreservedMarks.initial
  refine ⟨?_, rfl, ?_⟩
  · intro p hp
    show restoreLoop (pushAll PreservedMarks.initial ps).stack h p.1
        = Header.normal p.2
    apply restoreLoop_last_write
    · rw [hstack]
      simp only [PreservedMarks.initial, List.append_nil, List.mem_reverse,
        List.mem_map]
      exact ⟨p, hp, rfl⟩
    · intro e he hko
      rw [hstack] at he
      simp only [PreservedMarks.initial, List.append_nil, List.mem_reverse,
        List.mem_map] at he
      obtain ⟨q, hq, hqe⟩ := he
      subst hqe
      have hq_eq : q = p := nodup_keys_eq ps q p hnd hq hp hko
      show q.2 = p.2
      rw [hq_eq]
  · show (List.isEmpty []
        && ((pushAll PreservedMarks.initial ps).cacheSize == 0)) = true
    rw [hcache]
    rfl

/-- Witness for C1 at the push sequence `[(0, 3), (1, 4)]` against the
all-zero heap. -/
theorem c1_round_trip_restore_witness :
    (([((0 : Nat), (3 : MarkWord)), (1, 4)]).map Prod.fst).Nodup ∧
    ((pushAll PreservedMarks.initial [(0, 3), (1, 4)]).restore heap0).2 0
      = Header.normal 3 ∧
    ((pushAll PreservedMarks.initial [(0, 3), (1, 4)]).restore heap0).2 1
      = Header.normal 4 ∧
    ((pushAll PreservedMarks.initial
      [(0, 3), (1, 4)]).restore heap0).1.assert_emptyB = true :=
  ⟨by decide,
   (c1_round_trip_restore [(0, 3), (1, 4)] heap0 (by decide)).1 (0, 3)
     (by simp),
   (c1_round_trip_restore [(0, 3), (1, 4)] heap0 (by decide)).1 (1, 4)
     (by simp),
   (c1_round_trip_restore [(0, 3), (1, 4)] heap0 (by decide)).2.2⟩

/-- C2: for an initialized Preserved Set whose slots have no cached
segments, the sequential restore path (null thread pool) and the
parallel restore path (any participating thread count `wn`, hence in
particular 1, 2, and N) return identical results; the common result
succeeds with total equal to the sum of the slot sizes and leaves every
slot empty. -/
theorem c2_restore_paths_tally (s : PreservedMarksSet)
    (l : List PreservedMarks) (h : Heap) (wn : Nat)
    (hsl : s.stacksArr = some l) (hnum : 0 < s.num)
    (hcache : ∀ pm ∈ l, pm.cacheSize = 0) :
    s.restore (some wn) h = s.restore none h ∧
    s.restore none h =
      some ({ s with
          stacksArr := some (l.map fun pm => { pm with stack := [] }) },
        (seqRestoreLoop l h 0).2.1,
        (l.map PreservedMarks.size).sum) ∧
    ∀ pm ∈ (l.map fun pm => ({ pm with stack := [] } : PreservedMarks)),
      pm.stack = [] ∧ pm.assert_emptyB = true := by
  have hempty : ∀ pm ∈ (l.map fun pm =>
      ({ pm with stack := [] } : PreservedMarks)),
      pm.stack = [] ∧ pm.assert_emptyB = true := by
    intro pm hpm
    rw [List.mem_map] at hpm
    obtain ⟨q, hq, hqe⟩ := hpm
    subst hqe
    refine ⟨rfl, ?_⟩
    show (List.isEmpty [] && (q.cacheSize == 0)) = true
    rw [hcache q hq]
    rfl
  obtain ⟨c, st, n⟩ := s
  have hst : st = some l := hsl
  subst hst
  have hn : 0 < n := hnum
  have hguard : (PreservedMarksSet.mk c
      (some (l.map fun pm => { pm with stack := [] })) n).assert_emptyB
      = true := by
    unfold PreservedMarksSet.assert_emptyB
    rw [Bool.and_eq_true, decide_eq_true_eq, List.all_eq_true]
    exact ⟨hn, fun pm hpm => (hempty pm hpm).2⟩
  have hseq : PreservedMarksSet.restore ⟨c, some l, n⟩ none h =
      some (⟨c, some (l.map fun pm => { pm with stack := [] }), n⟩,
        (seqRestoreLoop l h 0).2.1, (l.map PreservedMarks.size).sum) := by
    unfold PreservedMarksSet.restore
    simp only [seqRestoreLoop_fst, seqRestoreLoop_total, Nat.zero_add]
    rw [if_pos]
    rw [Bool.and_eq_true]
    exact ⟨hguard, beq_self_eq_true _⟩
  have hpar : PreservedMarksSet.restore ⟨c, some l, n⟩ (some wn) h =
      PreservedMarksSet.restore ⟨c, some l, n⟩ none h := by
    unfold PreservedMarksSet.restore
    simp only [parRestoreLoop_eq_seq]
  exact ⟨hpar, hseq, hempty⟩

/-- Witness for C2 at a concrete two-slot set with sizes 1 and 2 and
thread count 2. -/
theorem c2_restore_paths_tally_witness :
    sEx.stacksArr = some lEx ∧ 0 < sEx.num ∧
    sEx.restore (some 2) heap0 = sEx.restore none heap0 :=
  ⟨rfl, by decide,
   (c2_restore_paths_tally sEx lEx heap0 2 rfl (by decide) (by decide)).1⟩

theorem adjustEntry_mark (h : Heap) (e : OopAndMarkWord) :
    (adjustEntry h e).mark = e.mark := by
  unfold adjustEntry
  split
  · rfl
  · rfl

theorem adjustEntry_not_fwd (h : Heap) (e : OopAndMarkWord)
    (hnf : (h e.obj).is_forwarded = false) : adjustEntry h e = e := by
  unfold adjustEntry
  rw [if_neg]
  show ¬((h e.get_oop).is_forwarded = true)
  rw [OopAndMarkWord.get_oop, hnf]
  exact Bool.false_ne_true

theorem adjustEntry_fwd (h : Heap) (e : OopAndMarkWord) (b : Nat)
    (hf : h e.obj = Header.fwd b) :
    adjustEntry h e = { e with obj := b } := by
  unfold adjustEntry
  rw [OopAndMarkWord.get_oop, hf]
  rfl

/-- C3: the adjustment pass maps every entry in place (adding and
removing nothing, so the size is unchanged); per entry it preserves the
saved mark word, leaves entries with non-forwarded targets untouched,
and retargets an entry whose target is forwarded to the forwardee.
Consequently, for an entry pushed for `A` with `A` forwarded to `B`
(`A ≠ B`), adjusting and then restoring writes the preserved mark into
`B`'s header while `A`'s header keeps its forwarding reference. -/
theorem c3_adjustment_correct (pm : PreservedMarks) (h : Heap) :
    ((pm.adjust_during_full_gc h).size = pm.size) ∧
    ((pm.adjust_during_full_gc h).stack = pm.stack.map (adjustEntry h)) ∧
    (∀ e, (adjustEntry h e).mark = e.mark) ∧
    (∀ e, (h e.obj).is_forwarded = false → adjustEntry h e = e) ∧
    (∀ e b, h e.obj = Header.fwd b →
      adjustEntry h e = { e with obj := b }) ∧
    (∀ (A B : Nat) (m : MarkWord), h A = Header.fwd B → A ≠ B →
      (((PreservedMarks.initial.push A m).adjust_during_full_gc
          h).restore h).2 B = Header.normal m ∧
      (((PreservedMarks.initial.push A m).adjust_during_full_gc
          h).restore h).2 A = h A) := by
  refine ⟨by simp [PreservedMarks.adjust_during_full_gc,
      PreservedMarks.size], rfl, fun e => adjustEntry_mark h e,
    fun e => adjustEntry_not_fwd h e, fun e b => adjustEntry_fwd h e b,
    ?_⟩
  intro A B m hAB hne
  have hstack : ((PreservedMarks.initial.push A m).adjust_during_full_gc
      h).stack = [{ obj := B, mark := m }] := by
    show [adjustEntry h { obj := A, mark := m }] = _
    rw [adjustEntry_fwd h { obj := A, mark := m } B hAB]
  constructor
  · show restoreLoop ((PreservedMarks.initial.push A m).adjust_during_full_gc
        h).stack h B = Header.normal m
    rw [hstack]
    show ((⟨B, m⟩ : OopAndMarkWord).set_mark h) B = Header.normal m
    simp [OopAndMarkWord.set_mark, Heap.write]
  · show restoreLoop ((PreservedMarks.initial.push A m).adjust_during_full_gc
        h).stack h A = h A
    rw [hstack]
    show ((⟨B, m⟩ : OopAndMarkWord).set_mark h) A = h A
    simp only [OopAndMarkWord.set_mark, Heap.write]
    exact if_neg hne

/-- Witness for C3 at the heap forwarding `0 → 1` and the entry
`(0, 5)`. -/
theorem c3_adjustment_correct_witness :
    heapAB 0 = Header.fwd 1 ∧ (0 : Nat) ≠ 1 ∧
    (((PreservedMarks.initial.push 0 5).adjust_during_full_gc
        heapAB).restore heapAB).2 1 = Header.normal 5 ∧
    (((PreservedMarks.initial.push 0 5).adjust_during_full_gc
        heapAB).restore heapAB).2 0 = heapAB 0 :=
  ⟨by decide, by decide,
   ((c3_adjustment_correct (PreservedMarks.initial.push 0 5)
       heapAB).2.2.2.2.2 0 1 5 (by decide) (by decide)).1,
   ((c3_adjustment_correct (PreservedMarks.initial.push 0 5)
       heapAB).2.2.2.2.2 0 1 5 (by decide) (by decide)).2⟩

/-- C9: one adjustment pass follows exactly one forwarding step.  An
entry whose target is forwarded to `b` is retargeted to `b` itself even
when `b` is in turn forwarded to `c`; after the pass the entry still
references a forwarded object and has not been collapsed to `c`. -/
theorem c9_single_hop_adjustment (pm : PreservedMarks) (h : Heap)
    (e : OopAndMarkWord) (b c : Nat) (he : e ∈ pm.stack)
    (hab : h e.obj = Header.fwd b) (hbc : h b = Header.fwd c)
    (hne : b ≠ c) :
    adjustEntry h e = e.set_oop b ∧
    e.set_oop b ∈ (pm.adjust_during_full_gc h).stack ∧
    (h (adjustEntry h e).obj).is_forwarded = true ∧
    (adjustEntry h e).obj ≠ c := by
  have h1 : adjustEntry h e = e.set_oop b := adjustEntry_fwd h e b hab
  refine ⟨h1, ?_, ?_, ?_⟩
  · rw [← h1]
    exact List.mem_map_of_mem (adjustEntry h) he
  · rw [h1]
    show (h b).is_forwarded = true
    rw [hbc]
    rfl
  · rw [h1]
    exact hne

/-- Witness for C9 at the chain `0 → 1 → 2` and the entry `(0, 7)`. -/
theorem c9_single_hop_adjustment_witness :
    ({ obj := 0, mark := 7 } : OopAndMarkWord) ∈
      (PreservedMarks.initial.push 0 7).stack ∧
    heapChain 0 = Header.fwd 1 ∧ heapChain 1 = Header.fwd 2 ∧
    (heapChain (adjustEntry heapChain { obj := 0, mark := 7 }).obj).is_forwarded
      = true ∧
    (adjustEntry heapChain { obj := 0, mark := 7 }).obj ≠ 2 :=
  ⟨by decide, by decide, by decide,
   (c9_single_hop_adjustment (PreservedMarks.initial.push 0 7) heapChain
     { obj := 0, mark := 7 } 1 2 (by decide) (by decide) (by decide)
     (by decide)).2.2.1,
   (c9_single_hop_adjustment (PreservedMarks.initial.push 0 7) heapChain
     { obj := 0, mark := 7 } 1 2 (by decide) (by decide) (by decide)
     (by decide)).2.2.2⟩

/-- C4: `init` fails its fatal precondition when the worker count is
zero or when the set is already initialized; under the valid
preconditions it succeeds, and any successful `init` leaves `num` equal
to the requested count with every slot empty.  `reclaim` fails its
fatal precondition when any slot is non-empty. -/
theorem c4_lifecycle_preconditions (s : PreservedMarksSet) (n : Nat) :
    (s.init 0 = none) ∧
    (¬(s.stacksArr = none ∧ s.num = 0) → s.init n = none) ∧
    (s.stacksArr = none → s.num = 0 → 0 < n →
      (s.init n).isSome = true) ∧
    (∀ s', s.init n = some s' → s'.num = n ∧ s'.assert_emptyB = true) ∧
    (∀ l pm, s.stacksArr = some l → pm ∈ l → pm.stack ≠ [] →
      s.reclaim = none) := by
  refine ⟨?_, ?_, ?_, ?_, ?_⟩
  · unfold PreservedMarksSet.init
    split
    · rw [if_neg (by exact Nat.lt_irrefl 0)]
    · rfl
  · intro hcond
    unfold PreservedMarksSet.init
    rw [if_neg hcond]
  · intro h1 h2 h3
    rw [init_fresh_some s n h1 h2 h3]
    rfl
  · intro s' hinit
    unfold PreservedMarksSet.init at hinit
    split at hinit
    · split at hinit
      · split at hinit
        · next hassert =>
            cases hinit
            exact ⟨rfl, hassert⟩
        · cases hinit
      · cases hinit
    · cases hinit
  · intro l pm hsl hpm hne
    have hpmf : pm.assert_emptyB = false := by
      unfold PreservedMarks.assert_emptyB
      cases hst : pm.stack with
      | nil => exact absurd hst hne
      | cons a t => rfl
    unfold PreservedMarksSet.reclaim
    rw [if_neg]
    intro hassert
    obtain ⟨l', hsl', -, hall⟩ := assert_emptyB_set_facts s hassert
    rw [hsl] at hsl'
    cases hsl'
    rw [hall pm hpm] at hpmf
    cases hpmf

/-- Witness for C4 at a fresh set, an already-initialized set, and a set
with a non-empty slot. -/
theorem c4_lifecycle_preconditions_witness :
    sFresh.init 0 = none ∧
    sEx.init 3 = none ∧
    (sFresh.init 3).isSome = true ∧
    ((PreservedMarksSet.mk true
        (some (List.replicate 3 PreservedMarks.initial)) 3).num = 3 ∧
      (PreservedMarksSet.mk true
        (some (List.replicate 3 PreservedMarks.initial)) 3).assert_emptyB
        = true) ∧
    sEx.reclaim = none :=
  ⟨(c4_lifecycle_preconditions sFresh 0).1,
   (c4_lifecycle_preconditions sEx 3).2.1 (by decide),
   (c4_lifecycle_preconditions sFresh 3).2.2.1 rfl rfl (by decide),
   (c4_lifecycle_preconditions sFresh 3).2.2.2.1
     (PreservedMarksSet.mk true
       (some (List.replicate 3 PreservedMarks.initial)) 3) (by decide),
   (c4_lifecycle_preconditions sEx 0).2.2.2.2 lEx
     { stack := [{ obj := 0, mark := 3 }], cacheSize := 0 } rfl
     (by decide) (by decide)⟩

/-- C5: the invariant "`num = 0` iff the backing array pointer is null"
holds after every successful operation: `init` establishes a positive
count with a non-null array, `reclaim` resets both to the uninitialized
state (after which `init` succeeds again), and a successful set-level
`restore` keeps the set initialized. -/
theorem c5_init_state_invariant (s : PreservedMarksSet) :
    (∀ n s', s.init n = some s' →
      s'.invOK ∧ 0 < s'.num ∧ s'.stacksArr ≠ none) ∧
    (∀ s', s.reclaim = some s' →
      s'.invOK ∧ s'.num = 0 ∧ s'.stacksArr = none ∧
      ∀ n, 0 < n → (s'.init n).isSome = true) ∧
    (∀ w h r, s.restore w h = some r →
      r.1.invOK ∧ 0 < r.1.num ∧ r.1.stacksArr ≠ none) := by
  refine ⟨?_, ?_, ?_⟩
  · intro n s' hinit
    unfold PreservedMarksSet.init at hinit
    split at hinit
    · split at hinit
      · next hn =>
          split at hinit
          · cases hinit
            refine ⟨?_, hn, by simp⟩
            unfold PreservedMarksSet.invOK
            simp [Nat.ne_of_gt hn]
          · cases hinit
      · cases hinit
    · cases hinit
  · intro s' hrec
    unfold PreservedMarksSet.reclaim at hrec
    split at hrec
    · cases hrec
      refine ⟨?_, rfl, rfl, ?_⟩
      · unfold PreservedMarksSet.invOK
        simp
      · intro n hn
        rw [init_fresh_some _ n rfl rfl hn]
        rfl
    · cases hrec
  · intro w h r hres
    have hassert := restore_some_assert s w h r hres
    obtain ⟨l, hsl, hnum, -⟩ := assert_emptyB_set_facts r.1 hassert
    refine ⟨?_, hnum, by rw [hsl]; simp⟩
    unfold PreservedMarksSet.invOK
    rw [hsl]
    simp [Nat.ne_of_gt hnum]

/-- Witness for C5 at a fresh set initialized to 2 workers, a reclaimed
single-slot set, and an empty-set restore. -/
theorem c5_init_state_invariant_witness :
    ((PreservedMarksSet.mk true
        (some (List.replicate 2 PreservedMarks.initial)) 2).invOK ∧
      0 < (PreservedMarksSet.mk true
        (some (List.replicate 2 PreservedMarks.initial)) 2).num) ∧
    ((PreservedMarksSet.mk false none 0).invOK ∧
      (PreservedMarksSet.mk false none 0).num = 0) ∧
    ((sEmptyEx, heap0, 0) : PreservedMarksSet × Heap × Nat).1.invOK :=
  ⟨⟨((c5_init_state_invariant sFresh).1 2
       (PreservedMarksSet.mk true
         (some (List.replicate 2 PreservedMarks.initial)) 2)
       (by decide)).1,
    ((c5_init_state_invariant sFresh).1 2
       (PreservedMarksSet.mk true
         (some (List.replicate 2 PreservedMarks.initial)) 2)
       (by decide)).2.1⟩,
   ⟨((c5_init_state_invariant sEmptyEx).2.1
       (PreservedMarksSet.mk false none 0) (by decide)).1,
    ((c5_init_state_invariant sEmptyEx).2.1
       (PreservedMarksSet.mk false none 0) (by decide)).2.1⟩,
   ((c5_init_state_invariant sEmptyEx).2.2 none heap0 (sEmptyEx, heap0, 0)
     (restore_empty_noop sEmptyEx heap0 (by decide))).1⟩

/-- C10: `reclaim` resets only the array pointer and the slot count; the
allocation-mode flag `in_c_heap` fixed at construction is untouched, and
a subsequent `init` keeps that same mode. -/
theorem c10_reclaim_frame (s s' : PreservedMarksSet)
    (hrec : s.reclaim = some s') :
    s'.in_c_heap = s.in_c_heap ∧ s'.stacksArr = none ∧ s'.num = 0 ∧
    ∀ n s'', s'.init n = some s'' → s''.in_c_heap = s.in_c_heap := by
  unfold PreservedMarksSet.reclaim at hrec
  split at hrec
  · cases hrec
    refine ⟨rfl, rfl, rfl, ?_⟩
    intro n s'' hinit
    unfold PreservedMarksSet.init at hinit
    split at hinit
    · split at hinit
      · split at hinit
        · cases hinit
          rfl
        · cases hinit
      · cases hinit
    · cases hinit
  · cases hrec

/-- Witness for C10 at the concrete single-empty-slot set. -/
theorem c10_reclaim_frame_witness :
    sEmptyEx.reclaim = some (PreservedMarksSet.mk false none 0) ∧
    (PreservedMarksSet.mk false none 0).in_c_heap = sEmptyEx.in_c_heap ∧
    (PreservedMarksSet.mk false
      (some (List.replicate 2 PreservedMarks.initial)) 2).in_c_heap
      = sEmptyEx.in_c_heap :=
  ⟨by decide,
   (c10_reclaim_frame sEmptyEx (PreservedMarksSet.mk false none 0)
     (by decide)).1,
   (c10_reclaim_frame sEmptyEx (PreservedMarksSet.mk false none 0)
     (by decide)).2.2.2 2
     (PreservedMarksSet.mk false
       (some (List.replicate 2 PreservedMarks.initial)) 2)
     (by decide)⟩

/-- C6: `restore_and_increment` performs a full `restore()` and adds the
pre-restore size to the shared counter; the atomic add is performed
exactly when that size is positive, and on an empty stack the counter
and its add flag are untouched. -/
theorem c6_restore_and_tally (pm : PreservedMarks) (h : Heap)
    (total : Nat) :
    pm.restore_and_increment h total =
      ((pm.restore h).1, (pm.restore h).2, total + pm.size,
        decide (0 < pm.size)) ∧
    ((pm.restore_and_increment h total).2.2.2 = true ↔ 0 < pm.size) ∧
    (pm.size = 0 →
      (pm.restore_and_increment h total).2.2.1 = total ∧
      (pm.restore_and_increment h total).2.2.2 = false) := by
  have heq := restore_and_increment_eq pm h total
  refine ⟨heq, ?_, ?_⟩
  · rw [heq]
    exact decide_eq_true_iff
  · intro h0
    rw [heq]
    constructor
    · show total + pm.size = total
      rw [h0, Nat.add_zero]
    · show decide (0 < pm.size) = false
      rw [h0]
      rfl

/-- Witness for C6 at a one-entry stack and at the empty stack. -/
theorem c6_restore_and_tally_witness :
    (PreservedMarks.initial.size = 0) ∧
    ((PreservedMarks.initial.restore_and_increment heap0 7).2.2.1 = 7 ∧
      (PreservedMarks.initial.restore_and_increment heap0 7).2.2.2
        = false) ∧
    (((PreservedMarks.initial.push 0 3).restore_and_increment
        heap0 7).2.2.2 = true ↔
      0 < (PreservedMarks.initial.push 0 3).size) :=
  ⟨rfl,
   (c6_restore_and_tally PreservedMarks.initial heap0 7).2.2 rfl,
   (c6_restore_and_tally (PreservedMarks.initial.push 0 3) heap0 7).2.1⟩

/-- C7: the Forwarding-Removal Helper invokes `init_forwarded_mark` on a
visited object exactly when the object reports itself forwarded; a
non-forwarded object is a complete no-op, and a forwarded object's
header is reset so that a subsequent `is_forwarded` check is false. -/
theorem c7_forwarding_removal_dispatch (h : Heap) (o : Nat) :
    ((RemoveForwardedPointerClosure.do_object h o).2
      = (h o).is_forwarded) ∧
    ((h o).is_forwarded = false →
      RemoveForwardedPointerClosure.do_object h o = (h, false)) ∧
    ((h o).is_forwarded = true →
      RemoveForwardedPointerClosure.do_object h o =
        (PreservedMarks.init_forwarded_mark h o, true) ∧
      ((RemoveForwardedPointerClosure.do_object h o).1 o).is_forwarded
        = false) := by
  unfold RemoveForwardedPointerClosure.do_object
  by_cases hf : (h o).is_forwarded = true
  · rw [if_pos hf, hf]
    refine ⟨rfl, fun hc => absurd hc (by decide), fun _ => ⟨rfl, ?_⟩⟩
    show ((PreservedMarks.init_forwarded_mark h o) o).is_forwarded = false
    unfold PreservedMarks.init_forwarded_mark Heap.write
    rw [if_pos rfl]
    rfl
  · have hf' : (h o).is_forwarded = false := by
      cases hb : (h o).is_forwarded
      · rfl
      · exact absurd hb hf
    rw [if_neg hf, hf']
    exact ⟨rfl, fun _ => rfl, fun hc => absurd hc (by decide)⟩

/-- Witness for C7 at a forwarded object (`0` under `heapAB`) and a
non-forwarded object (`2` under `heapAB`). -/
theorem c7_forwarding_removal_dispatch_witness :
    (heapAB 0).is_forwarded = true ∧
    ((RemoveForwardedPointerClosure.do_object heapAB 0).1 0).is_forwarded
      = false ∧
    (heapAB 2).is_forwarded = false ∧
    RemoveForwardedPointerClosure.do_object heapAB 2 = (heapAB, false) :=
  ⟨by decide,
   ((c7_forwarding_removal_dispatch heapAB 0).2.2 (by decide)).2,
   by decide,
   (c7_forwarding_removal_dispatch heapAB 2).2.1 (by decide)⟩

/-- C8: restoring a Preserved Set whose slots are all already empty
succeeds (does not fault) with total `0` and returns the set unchanged;
consequently a second restore immediately after any successful restore
changes nothing and reports total `0`. -/
theorem c8_idempotent_empty_restore (s : PreservedMarksSet) (h : Heap) :
    (s.assert_emptyB = true → s.restore none h = some (s, h, 0)) ∧
    (∀ s' h' t, s.restore none h = some (s', h', t) →
      s'.restore none h' = some (s', h', 0)) := by
  refine ⟨restore_empty_noop s h, ?_⟩
  intro s' h' t hres
  exact restore_empty_noop s' h'
    (restore_some_assert s none h (s', h', t) hres)

/-- Witness for C8 at the concrete single-empty-slot set. -/
theorem c8_idempotent_empty_restore_witness :
    sEmptyEx.assert_emptyB = true ∧
    sEmptyEx.restore none heap0 = some (sEmptyEx, heap0, 0) :=
  ⟨by decide,
   (c8_idempotent_empty_restore sEmptyEx heap0).1 (by decide)⟩
